/-
Verification of the paper-download / summarization pipeline
(`pull_papers.py` and `daily_paper_job.py`).

Shallow embedding conventions:
* Python strings are Lean `String` (lists of characters); the regex
  `(\d{8})_paper(\d+)_(.+)\.pdf` applied with `re.match` (anchored at the
  start only) is embedded as an explicit matcher `matchCodec` whose greedy
  behaviour (`\d+` maximal digit run, `(.+)` maximal non-newline run with
  `.pdf` immediately after, trailing characters permitted) mirrors Python's
  backtracking semantics; `\d` is taken to be the decimal digits `0-9`.
* The filesystem is an association list from paths to file contents; a
  write prepends, so the most recent write shadows older ones.
* HTTP is an oracle `String → HttpResp`: a response with a status code and
  body, or a raised connection-level exception.
* Python exceptions are `Except Unit`; functions that can raise return in
  that monad, or record a `raised` outcome in a result structure.
-/
import Mathlib

set_option maxHeartbeats 1000000

/-! ### Decimal digits and number formatting

Models Python's decimal formatting used by the f-strings
(`f"paper{i}"`, `strftime('%Y%m%d')`, `strftime('%Y-%m-%d')`) and the
`int(...)` conversion applied to regex capture groups. -/

/-- The decimal digit character for `n` (`n ≥ 9` gives `'9'`; only used
with `n < 10`). -/
def digitChar : Nat → Char
  | 0 => '0'
  | 1 => '1'
  | 2 => '2'
  | 3 => '3'
  | 4 => '4'
  | 5 => '5'
  | 6 => '6'
  | 7 => '7'
  | 8 => '8'
  | _ => '9'

/-- Numeric value of a digit character, as in Python's `int` conversion. -/
def dv (c : Char) : Nat := c.toNat - 48

/-- `int(s)` for a string of decimal digits (most significant first). -/
def digitsToNat (l : List Char) : Nat :=
  l.foldl (fun a c => 10 * a + dv c) 0

/-- Fuel-based decimal rendering helper (structural recursion so that
terms reduce definitionally; the fuel is always sufficient). -/
def natDigitsAux : Nat → Nat → List Char
  | 0, _ => []
  | fuel + 1, n =>
    if n < 10 then [digitChar n]
    else natDigitsAux fuel (n / 10) ++ [digitChar (n % 10)]

/-- Decimal rendering of a natural number, most significant digit first,
as produced by Python's `str`/f-string formatting. -/
def natDigits (n : Nat) : List Char := natDigitsAux (n + 1) n

/-- Two-digit zero-padded rendering (`%m`, `%d`). -/
def pad2 (n : Nat) : List Char := [digitChar (n / 10 % 10), digitChar (n % 10)]

/-- Four-digit zero-padded rendering (`%Y`). -/
def pad4 (n : Nat) : List Char :=
  [digitChar (n / 1000 % 10), digitChar (n / 100 % 10),
   digitChar (n / 10 % 10), digitChar (n % 10)]

/-- `dt.strftime('%Y%m%d')` for a date with components `y`, `m`, `d`. -/
def date8 (y m d : Nat) : List Char := pad4 y ++ pad2 m ++ pad2 d

/-- `strftime('%Y-%m-%d')` for a date with components `y`, `m`, `d`. -/
def isoChars (y m d : Nat) : List Char :=
  pad4 y ++ '-' :: (pad2 m ++ '-' :: pad2 d)

theorem dv_digitChar : ∀ n, n < 10 → dv (digitChar n) = n := by decide

theorem digitChar_isDigit (n : Nat) : (digitChar n).isDigit = true := by
  rcases n with _|_|_|_|_|_|_|_|_|n <;> rfl

theorem ne_of_isDigit {c : Char} (h : c.isDigit = true) :
    c ≠ '\n' ∧ c ≠ '_' ∧ c ≠ '/' ∧ c ≠ '.' := by
  refine ⟨?_, ?_, ?_, ?_⟩ <;> rintro rfl <;> exact absurd h (by decide)

theorem natDigits_ne_nil (n : Nat) : natDigits n ≠ [] := by
  rw [natDigits, natDigitsAux]
  split
  · simp
  · simp

theorem natDigitsAux_isDigit (fuel : Nat) :
    ∀ n, ∀ c ∈ natDigitsAux fuel n, c.isDigit = true := by
  induction fuel with
  | zero => intro n c hc; cases hc
  | succ fuel ih =>
    intro n c hc
    rw [natDigitsAux] at hc
    split at hc
    · rw [List.mem_singleton] at hc
      subst hc
      exact digitChar_isDigit n
    · rcases List.mem_append.mp hc with h | h
      · exact ih (n / 10) c h
      · rw [List.mem_singleton] at h
        subst h
        exact digitChar_isDigit (n % 10)

theorem natDigits_isDigit (n : Nat) :
    ∀ c ∈ natDigits n, c.isDigit = true :=
  natDigitsAux_isDigit (n + 1) n

theorem digitsToNat_append_singleton (l : List Char) (c : Char) :
    digitsToNat (l ++ [c]) = 10 * digitsToNat l + dv c := by
  simp [digitsToNat, List.foldl_append]

theorem digitsToNat_natDigitsAux (fuel : Nat) :
    ∀ n, n < fuel → digitsToNat (natDigitsAux fuel n) = n := by
  induction fuel with
  | zero => intro n h; omega
  | succ fuel ih =>
    intro n h
    rw [natDigitsAux]
    split
    · next h10 =>
      simp [digitsToNat, List.foldl, dv_digitChar n h10]
    · next h10 =>
      have hlt : n / 10 < n := Nat.div_lt_self (by omega) (by omega)
      rw [digitsToNat_append_singleton, ih (n / 10) (by omega),
        dv_digitChar (n % 10) (Nat.mod_lt _ (by omega))]
      omega

theorem digitsToNat_natDigits (n : Nat) : digitsToNat (natDigits n) = n :=
  digitsToNat_natDigitsAux (n + 1) n (by omega)

theorem digitsToNat_pad4 (y : Nat) (hy : y ≤ 9999) :
    digitsToNat (pad4 y) = y := by
  simp only [pad4, digitsToNat, List.foldl,
    dv_digitChar _ (Nat.mod_lt _ (by omega))]
  omega

theorem digitsToNat_pad2 (m : Nat) (hm : m ≤ 99) :
    digitsToNat (pad2 m) = m := by
  simp only [pad2, digitsToNat, List.foldl,
    dv_digitChar _ (Nat.mod_lt _ (by omega))]
  omega

theorem pad4_isDigit (y : Nat) : ∀ c ∈ pad4 y, c.isDigit = true := by
  intro c hc
  simp only [pad4, List.mem_cons, List.mem_singleton] at hc
  rcases hc with rfl | rfl | rfl | rfl | h
  any_goals apply digitChar_isDigit
  exact absurd h (List.not_mem_nil c)

theorem pad2_isDigit (m : Nat) : ∀ c ∈ pad2 m, c.isDigit = true := by
  intro c hc
  simp only [pad2, List.mem_cons, List.mem_singleton] at hc
  rcases hc with rfl | rfl | h
  any_goals apply digitChar_isDigit
  exact absurd h (List.not_mem_nil c)

theorem date8_isDigit (y m d : Nat) : ∀ c ∈ date8 y m d, c.isDigit = true := by
  intro c hc
  simp only [date8, List.mem_append] at hc
  rcases hc with (h | h) | h
  · exact pad4_isDigit y c h
  · exact pad2_isDigit m c h
  · exact pad2_isDigit d c h

theorem date8_length (y m d : Nat) : (date8 y m d).length = 8 := by
  simp [date8, pad4, pad2]

/-! ### Filename Codec

`extract_paper_info` (daily_paper_job.py, lines 22-37) matches the basename
of its argument against `(\d{8})_paper(\d+)_(.+)\.pdf` with `re.match`
(anchored at the start of the string only), then parses the 8-digit group
with `strptime('%Y%m%d')` — which raises on an invalid calendar date — and
reformats it with `strftime('%Y-%m-%d')`.

The encoder is the f-string in `pull_papers.py` line 115:
`f"{dt.strftime('%Y%m%d')}_paper{i}_{arxiv_id}.pdf"`. -/

/-- The characters of the literal `\.pdf` tail of the codec regex. -/
def pdfTail : List Char := ['.', 'p', 'd', 'f']

/-- The characters of the literal `_paper` infix of the codec regex. -/
def paperLit : List Char := ['_', 'p', 'a', 'p', 'e', 'r']

/-- Position `p` is a spot where the greedy `(.+)\.pdf` suffix of the regex
can close: at least one character before it, the literal `.pdf` right after
it, and no newline before it (`.` does not match a newline). -/
def isValidPdfPos (R : List Char) (p : Nat) : Bool :=
  decide (1 ≤ p ∧ (R.drop p).take 4 = pdfTail ∧ ∀ c ∈ R.take p, c ≠ '\n')

/-- Scan downward from `bnd` for the largest valid close position — the
match the greedy `(.+)` produces. -/
def lastPdfPosAux (R : List Char) : Nat → Option Nat
  | 0 => none
  | p + 1 => if isValidPdfPos R (p + 1) then some (p + 1) else lastPdfPosAux R p

/-- The close position chosen by the greedy `(.+)\.pdf`. -/
def lastPdfPos (R : List Char) : Option Nat := lastPdfPosAux R R.length

/-- The regex match `re.match(r'(\d{8})_paper(\d+)_(.+)\.pdf', filename)`,
returning the three capture groups on success. -/
def matchCodec (l : List Char) : Option (List Char × List Char × List Char) :=
  let d := l.take 8
  if (d.length = 8 ∧ ∀ c ∈ d, c.isDigit = true) then
    let r1 := l.drop 8
    if r1.take 6 = paperLit then
      let r2 := r1.drop 6
      let n := r2.takeWhile Char.isDigit
      if (n ≠ [] ∧ (r2.drop n.length).take 1 = ['_']) then
        let R := r2.drop (n.length + 1)
        match lastPdfPos R with
        | some p => some (d, n, R.take p)
        | none => none
      else none
    else none
  else none

/-- Gregorian leap year, as implemented by Python's `datetime`. -/
def isLeap (y : Nat) : Bool :=
  (y % 4 = 0 && y % 100 ≠ 0) || y % 400 = 0

/-- Days in a month, as implemented by Python's `datetime`. -/
def daysInMonth (y m : Nat) : Nat :=
  if m = 2 then (if isLeap y then 29 else 28)
  else if m = 4 ∨ m = 6 ∨ m = 9 ∨ m = 11 then 30
  else 31

/-- Whether `datetime.strptime(date_str, '%Y%m%d')` succeeds on the 8-digit
string with value components `y`, `m`, `d` (Python's year range is
1..9999). -/
def validDate (y m d : Nat) : Bool :=
  decide (1 ≤ y ∧ y ≤ 9999 ∧ 1 ≤ m ∧ m ≤ 12 ∧ 1 ≤ d ∧ d ≤ daysInMonth y m)

/-- `os.path.basename`: the part of the path after the last `/`. -/
def basename (p : String) : String :=
  String.mk ((p.toList.reverse.takeWhile (fun c => c ≠ '/')).reverse)

/-- The record returned by `extract_paper_info` on a successful match. -/
structure PaperRecord where
  date : String
  number : Nat
  arxiv_id : String
  filename : String
  path : String
deriving DecidableEq, Repr

/-- `extract_paper_info` (daily_paper_job.py, lines 22-37).  `Except Unit`
models the possible `ValueError` raised by `strptime` on a regex-matching
filename whose 8-digit group is not a valid calendar date. -/
def extract_paper_info (pdf_path : String) : Except Unit (Option PaperRecord) :=
  let filename := basename pdf_path
  match matchCodec filename.toList with
  | none => .ok none
  | some (d, n, x) =>
    let y := digitsToNat (d.take 4)
    let mo := digitsToNat ((d.drop 4).take 2)
    let dy := digitsToNat (d.drop 6)
    if validDate y mo dy then
      .ok (some { date := String.mk (isoChars y mo dy),
                  number := digitsToNat n,
                  arxiv_id := String.mk x,
                  filename := filename,
                  path := pdf_path })
    else .error ()

/-- The filename built by `main` (pull_papers.py, line 115):
`f"{dt.strftime('%Y%m%d')}_paper{i}_{arxiv_id}.pdf"`. -/
def encodeFilename (y m d : Nat) (i : Nat) (arxiv_id : String) : String :=
  String.mk (date8 y m d) ++ "_paper" ++ String.mk (natDigits i) ++ "_"
    ++ arxiv_id ++ ".pdf"

/-! ### Filesystem and HTTP model -/

/-- The filesystem: an association list from paths to file contents.  A
write prepends, so lookup returns the most recent write. -/
def FSys : Type := List (String × String)

/-- Contents of the file at `p`, if one exists. -/
def fsLookup (fs : FSys) (p : String) : Option String :=
  (List.find? (fun e => decide (e.1 = p)) fs).map (fun e => e.2)

/-- `os.path.exists`. -/
def fsExists (fs : FSys) (p : String) : Bool := (fsLookup fs p).isSome

/-- Writing (or overwriting) the file at `p`. -/
def fsWrite (fs : FSys) (p c : String) : FSys := (p, c) :: fs

/-- `os.path.join(dest_folder, filename)` for a relative filename. -/
def joinPath (a b : String) : String := a ++ "/" ++ b

/-- The outcome of one HTTP request: a response with a status code and a
body, or a connection-level exception (`requests.exceptions`). -/
inductive HttpResp
  | ok (status : Nat) (body : String)
  | exn
deriving DecidableEq, Repr

/-! ### Document Fetcher (`download_arxiv_pdf`, pull_papers.py lines 68-93) -/

/-- How one call to `download_arxiv_pdf` ended: idempotent skip, fresh
download, soft failure on a non-200 status, or a re-raised exception. -/
inductive DlOutcome
  | skipped
  | downloaded
  | notFound
  | raised
deriving DecidableEq, Repr

/-- The log calls `download_arxiv_pdf` makes, in order. -/
inductive LogEv
  | infoExists (path : String)
  | infoDownloading (url : String)
  | infoSuccess (url path : String)
  | warnNotFound (arxiv_id : String) (status : Nat)
  | errorDownloading (url : String)
deriving DecidableEq, Repr

/-- Result of one call to `download_arxiv_pdf`: the filesystem afterwards,
the URLs requested, the log lines emitted, and the outcome. -/
structure DlResult where
  fs : FSys
  requests : List String
  logs : List LogEv
  outcome : DlOutcome

/-- The URL `f"https://arxiv.org/pdf/{arxiv_id}.pdf"`. -/
def arxivPdfUrl (arxiv_id : String) : String :=
  "https://arxiv.org/pdf/" ++ arxiv_id ++ ".pdf"

/-- `download_arxiv_pdf(arxiv_id, dest_folder, filename)`
(pull_papers.py, lines 68-93), against the HTTP oracle `http`. -/
def download_arxiv_pdf (http : String → HttpResp)
    (arxiv_id dest_folder filename : String) (fs : FSys) : DlResult :=
  let filepath := joinPath dest_folder filename
  if fsExists fs filepath then
    { fs := fs, requests := [], logs := [.infoExists filepath],
      outcome := .skipped }
  else
    let pdf_url := arxivPdfUrl arxiv_id
    match http pdf_url with
    | .ok status body =>
      if status = 200 then
        { fs := fsWrite fs filepath body, requests := [pdf_url],
          logs := [.infoDownloading pdf_url, .infoSuccess pdf_url filepath],
          outcome := .downloaded }
      else
        { fs := fs, requests := [pdf_url],
          logs := [.infoDownloading pdf_url, .warnNotFound arxiv_id status],
          outcome := .notFound }
    | .exn =>
      { fs := fs, requests := [pdf_url],
        logs := [.infoDownloading pdf_url, .errorDownloading pdf_url],
        outcome := .raised }

/-! ### Listing Resolver (`get_arxiv_ids`, pull_papers.py lines 45-66)

The HTML fetching/parsing library is out of scope; a successfully fetched
and parsed listing page is represented by the document-order list of the
`href` targets of the anchors matched by the selector
`div.w-full h3 a`. -/

/-- `href.split("/")[-1]`: the final path segment of a link target
(`String.splitOn` never returns an empty list, so the default of
`getLastD` is never used). -/
def lastSegment (href : String) : String := (href.splitOn "/").getLastD ""

/-- The selection/extraction step of `get_arxiv_ids` on a successfully
fetched page: `anchors[:5]`, then the final path segment of each. -/
def get_arxiv_ids (anchors : List String) : List String :=
  (anchors.take 5).map lastSegment

/-! ### Batch Downloader (`main`, pull_papers.py lines 95-125) -/

/-- A calendar date, as the `datetime` values iterated by `main`. -/
structure DateT where
  y : Nat
  m : Nat
  d : Nat
deriving DecidableEq, Repr

/-- Observable events of one run of `main`'s loops. -/
inductive Ev
  | procDate (dt : DateT)
  | listingFailed (dt : DateT)
  | attempt (i : Nat) (arxiv_id : String)
  | attemptFailed (i : Nat) (arxiv_id : String)
  | sleep
deriving DecidableEq, Repr

/-- The inner loop of `main` (pull_papers.py, lines 114-125) over the
identifiers of one date: `i` is the 1-based `enumerate` counter and `n`
the length of the full identifier list.  A raising download jumps to the
`except` handler, skipping the `time.sleep(1)` that only runs after a
normal return when `i < n`. -/
def runIds (http : String → HttpResp) (dt : DateT) (out_dir : String)
    (n : Nat) : Nat → List String → FSys → FSys × List Ev
  | _, [], fs => (fs, [])
  | i, arxiv_id :: rest, fs =>
    let filename := encodeFilename dt.y dt.m dt.d i arxiv_id
    let r := download_arxiv_pdf http arxiv_id out_dir filename fs
    if r.outcome = .raised then
      let k := runIds http dt out_dir n (i + 1) rest r.fs
      (k.1, .attemptFailed i arxiv_id :: k.2)
    else
      let k := runIds http dt out_dir n (i + 1) rest r.fs
      (k.1, .attempt i arxiv_id ::
        ((if i < n then [Ev.sleep] else []) ++ k.2))

/-- One date's worth of downloads, as `main` performs after a successful
`get_arxiv_ids` call. -/
def runDate (http : String → HttpResp) (dt : DateT) (out_dir : String)
    (ids : List String) (fs : FSys) : FSys × List Ev :=
  runIds http dt out_dir ids.length 1 ids fs

/-- The dated loop of `main` (pull_papers.py, lines 102-125): the listing
oracle may raise for a date, which is logged and skipped; otherwise the
date's identifiers are downloaded. -/
def pull_main (http : String → HttpResp)
    (listing : DateT → Except Unit (List String)) (out_dir : String) :
    List DateT → FSys → FSys × List Ev
  | [], fs => (fs, [])
  | dt :: rest, fs =>
    match listing dt with
    | .error _ =>
      let k := pull_main http listing out_dir rest fs
      (k.1, .procDate dt :: .listingFailed dt :: k.2)
    | .ok ids =>
      let k1 := runDate http dt out_dir ids fs
      let k2 := pull_main http listing out_dir rest k1.1
      (k2.1, .procDate dt :: (k1.2 ++ k2.2))

/-! ### Summary Generator (`generate_markdown`, daily_paper_job.py
lines 40-85)

The enumeration/filtering prologue of `generate_markdown` is elided in the
source (`# ... existing code ...`); it is modelled from the spec as
`selectPapers`.  The visible per-paper loop (lines 45-85) is
`processPapers`.  The `markitdown` converter is an external oracle. -/

/-- Date order used for the range filter, on `(y, m, d)` triples. -/
def dateLe (a b : DateT) : Bool :=
  decide (a.y < b.y ∨ (a.y = b.y ∧ (a.m < b.m ∨ (a.m = b.m ∧ a.d ≤ b.d))))

/-- Parse an ISO `YYYY-MM-DD` string back into components (the decoded
`PaperRecord.date` field always has this shape). -/
def parseIso (s : String) : DateT :=
  { y := digitsToNat (s.toList.take 4),
    m := digitsToNat ((s.toList.drop 5).take 2),
    d := digitsToNat (s.toList.drop 8) }

/-- Modelled from the spec: the elided prologue of `generate_markdown`
("enumerates files in the source directory, decodes each via Filename
Codec, discards non-matching files and those whose decoded date falls
outside the range").  `files` is the enumeration of the source directory
(as paths); decoding uses `extract_paper_info`, whose possible
date-parsing exception propagates. -/
def selectPapers : List String → DateT → DateT → Except Unit (List PaperRecord)
  | [], _, _ => .ok []
  | f :: rest, s, e =>
    match extract_paper_info f, selectPapers rest s e with
    | .error u, _ => .error u
    | .ok _, .error u => .error u
    | .ok none, .ok tail => .ok tail
    | .ok (some r), .ok tail =>
      if dateLe s (parseIso r.date) && dateLe (parseIso r.date) e then
        .ok (r :: tail)
      else .ok tail

/-- `os.path.splitext(f)[0]`: everything before the last `.`  (for names
without a dot, the whole name). -/
def stem (f : String) : String :=
  if '.' ∈ f.toList then
    String.mk ((((f.toList.reverse).dropWhile (fun c => c ≠ '.')).drop 1).reverse)
  else f

/-- `f"https://arxiv.org/abs/{arxiv_id}"`. -/
def arxivAbsUrl (arxiv_id : String) : String :=
  "https://arxiv.org/abs/" ++ arxiv_id

/-- `f"https://huggingface.co/papers/{arxiv_id}"`. -/
def hfUrl (arxiv_id : String) : String :=
  "https://huggingface.co/papers/" ++ arxiv_id

/-- The markdown content composed for one paper (daily_paper_job.py,
lines 59-70); `summary` is the converter's text, and the empty string is
falsy in the `if paper_summary:` test. -/
def mdBody (r : PaperRecord) (summary : String) : String :=
  "# Paper: " ++ r.arxiv_id ++ "\n\n"
    ++ "- **Date**: " ++ r.date ++ "\n"
    ++ "- **Paper Number**: " ++ String.mk (natDigits r.number) ++ "\n"
    ++ "- **ArXiv ID**: [" ++ r.arxiv_id ++ "](" ++ arxivAbsUrl r.arxiv_id
    ++ ")\n"
    ++ "- **HuggingFace Link**: [View on HuggingFace](" ++ hfUrl r.arxiv_id
    ++ ")\n\n"
    ++ (if summary ≠ "" then "## Paper\n\n" ++ summary ++ "\n"
        else "## Summary\n\nFailed to extract paper as markdown.\n")

/-- The visible per-paper loop of `generate_markdown` (daily_paper_job.py,
lines 45-85): convert each paper; on a conversion exception log and skip
the file; otherwise write (unconditionally overwriting) the `.md` file
with the same stem and record its path. -/
def processPapers (convert : String → Except Unit String)
    (markdown_dir : String) : List PaperRecord → FSys → FSys × List String
  | [], fs => (fs, [])
  | r :: rest, fs =>
    let md_path := joinPath markdown_dir (stem r.filename ++ ".md")
    match convert r.path with
    | .error _ => processPapers convert markdown_dir rest fs
    | .ok text =>
      let k := processPapers convert markdown_dir rest
        (fsWrite fs md_path (mdBody r text))
      (k.1, md_path :: k.2)

/-- `generate_markdown(papers_dir, markdown_dir, start_date, end_date)`:
the spec-modelled selection followed by the visible per-paper loop.
Returns the filesystem and the list of written paths. -/
def generate_markdown (convert : String → Except Unit String)
    (files : List String) (markdown_dir : String) (start_date end_date : DateT)
    (fs : FSys) : Except Unit (FSys × List String) :=
  match selectPapers files start_date end_date with
  | .error u => .error u
  | .ok papers => .ok (processPapers convert markdown_dir papers fs)

/-- The first line of a file's content (up to the first newline). -/
def firstLine (s : String) : String :=
  String.mk (s.toList.takeWhile (fun c => c ≠ '\n'))

/-- Whether `s` begins with `t`. -/
def isPrefixList : List Char → List Char → Bool
  | [], _ => true
  | _ :: _, [] => false
  | a :: s, b :: l => decide (a = b) && isPrefixList s l

/-- Whether `s` occurs contiguously inside `l`. -/
def isSubList (s : List Char) : List Char → Bool
  | [] => decide (s = [])
  | c :: rest => isPrefixList s (c :: rest) || isSubList s rest

/-- Whether `sub` occurs as a contiguous substring of `s`. -/
def containsStr (s sub : String) : Bool := isSubList sub.toList s.toList

/-! ### Generic list and string helpers -/

theorem toList_mk (l : List Char) : (String.mk l).toList = l := rfl

theorem mk_toList (s : String) : String.mk s.toList = s := by cases s; rfl

theorem toList_append (a b : String) : (a ++ b).toList = a.toList ++ b.toList := by
  cases a; cases b; rfl

theorem append_eq_mk (a b : String) :
    a ++ b = String.mk (a.toList ++ b.toList) := by
  rw [← toList_append, mk_toList]

theorem toList_eq_nil_iff (s : String) : s.toList = [] ↔ s = "" := by
  constructor
  · intro h
    rw [← mk_toList s, h]
  · intro h
    subst h
    rfl

theorem takeWhile_append_all {p : Char → Bool} (a l : List Char)
    (ha : ∀ c ∈ a, p c = true) :
    (a ++ l).takeWhile p = a ++ l.takeWhile p := by
  induction a with
  | nil => simp
  | cons x xs ih =>
    rw [List.cons_append, List.takeWhile_cons, ha x (List.mem_cons_self x xs),
      ih (fun c hc => ha c (List.mem_cons_of_mem x hc))]
    simp

theorem takeWhile_cons_stop {p : Char → Bool} (b : Char) (r : List Char)
    (hb : p b = false) : (b :: r).takeWhile p = [] := by
  rw [List.takeWhile_cons, hb]
  simp

theorem takeWhile_append_stop {p : Char → Bool} (a : List Char) (b : Char)
    (r : List Char) (ha : ∀ c ∈ a, p c = true) (hb : p b = false) :
    (a ++ b :: r).takeWhile p = a := by
  rw [takeWhile_append_all a _ ha, takeWhile_cons_stop b r hb, List.append_nil]

theorem takeWhile_eq_self {p : Char → Bool} (l : List Char)
    (h : ∀ c ∈ l, p c = true) : l.takeWhile p = l := by
  induction l with
  | nil => rfl
  | cons x xs ih =>
    rw [List.takeWhile_cons, h x (List.mem_cons_self x xs),
      ih (fun c hc => h c (List.mem_cons_of_mem x hc))]
    simp

theorem basename_eq_self (s : String) (h : ∀ c ∈ s.toList, c ≠ '/') :
    basename s = s := by
  unfold basename
  rw [takeWhile_eq_self _ (by
    intro c hc
    rw [List.mem_reverse] at hc
    simpa using h c hc)]
  rw [List.reverse_reverse, mk_toList]

theorem isPrefixList_self_append (s l : List Char) :
    isPrefixList s (s ++ l) = true := by
  induction s with
  | nil => rfl
  | cons x xs ih => simp [isPrefixList, ih]

theorem isSubList_of_prefix {s l : List Char} (h : isPrefixList s l = true) :
    isSubList s l = true := by
  cases l with
  | nil =>
    cases s with
    | nil => rfl
    | cons x xs => simp [isPrefixList] at h
  | cons c r => simp [isSubList, h]

theorem isSubList_append_right {s l : List Char} (a : List Char)
    (h : isSubList s l = true) : isSubList s (a ++ l) = true := by
  induction a with
  | nil => simpa using h
  | cons x xs ih => simp [isSubList, ih]

theorem isSubList_self_append (s l : List Char) :
    isSubList s (s ++ l) = true :=
  isSubList_of_prefix (isPrefixList_self_append s l)

/-! ### Properties of the greedy close-position scan -/

theorem isValidPdfPos_zero (R : List Char) : isValidPdfPos R 0 = false := by
  simp [isValidPdfPos]

theorem lastPdfPosAux_valid {R : List Char} :
    ∀ {b p : Nat}, lastPdfPosAux R b = some p → isValidPdfPos R p = true := by
  intro b
  induction b with
  | zero => intro p h; simp [lastPdfPosAux] at h
  | succ b ih =>
    intro p h
    rw [lastPdfPosAux] at h
    split at h
    · next hv => cases h; exact hv
    · exact ih h

theorem lastPdfPosAux_of_maximal {R : List Char} {p : Nat}
    (hp : isValidPdfPos R p = true)
    (hmax : ∀ q, p < q → isValidPdfPos R q = false) :
    ∀ b, p ≤ b → lastPdfPosAux R b = some p := by
  intro b
  induction b with
  | zero =>
    intro hb
    have : p = 0 := Nat.le_zero.mp hb
    rw [this, isValidPdfPos_zero] at hp
    cases hp
  | succ b ih =>
    intro hb
    rw [lastPdfPosAux]
    by_cases he : p = b + 1
    · subst he
      rw [if_pos hp]
    · have hpb : p ≤ b := by omega
      rw [if_neg (by rw [hmax (b + 1) (by omega)]; simp), ih hpb]

theorem lastPdfPosAux_ne_none {R : List Char} {p : Nat}
    (hp : isValidPdfPos R p = true) :
    ∀ b, p ≤ b → lastPdfPosAux R b ≠ none := by
  intro b
  induction b with
  | zero =>
    intro hb
    have : p = 0 := Nat.le_zero.mp hb
    rw [this, isValidPdfPos_zero] at hp
    cases hp
  | succ b ih =>
    intro hb
    rw [lastPdfPosAux]
    by_cases he : p = b + 1
    · subst he
      rw [if_pos hp]
      simp
    · split
      · simp
      · exact ih (by omega)

/-- A valid close position needs the four characters of `.pdf` after it. -/
theorem length_ge_of_valid {R : List Char} {p : Nat}
    (h : isValidPdfPos R p = true) : p + 4 ≤ R.length := by
  rw [isValidPdfPos, decide_eq_true_iff] at h
  obtain ⟨-, h4, -⟩ := h
  have := congrArg List.length h4
  simp [List.length_take, List.length_drop, pdfTail] at this
  omega

/-- On a remainder of the exact shape `x ++ ".pdf"` (no trailing junk), the
greedy scan closes exactly at `x.length`, capturing `x`. -/
theorem lastPdfPos_exact (x : List Char) (hx : x ≠ [])
    (hxn : ∀ c ∈ x, c ≠ '\n') :
    lastPdfPos (x ++ pdfTail) = some x.length := by
  have hlen : (x ++ pdfTail).length = x.length + 4 := by
    simp [pdfTail]
  have hvalid : isValidPdfPos (x ++ pdfTail) x.length = true := by
    rw [isValidPdfPos, decide_eq_true_iff]
    refine ⟨?_, ?_, ?_⟩
    · have : x.length ≠ 0 := fun h => hx (List.length_eq_zero.mp h)
      omega
    · rw [List.drop_left, List.take_of_length_le (by simp [pdfTail])]
    · rw [List.take_left]
      exact hxn
  have hmax : ∀ q, x.length < q → isValidPdfPos (x ++ pdfTail) q = false := by
    intro q hq
    by_contra hne
    have hv : isValidPdfPos (x ++ pdfTail) q = true := by
      cases h : isValidPdfPos (x ++ pdfTail) q
      · exact absurd h hne
      · rfl
    have := length_ge_of_valid hv
    omega
  exact lastPdfPosAux_of_maximal hvalid hmax _ (by omega)

/-! ### The regex on an encoder-shaped string -/

theorem matchCodec_concat (d n x : List Char)
    (hd8 : d.length = 8) (hdd : ∀ c ∈ d, c.isDigit = true)
    (hn : n ≠ []) (hnd : ∀ c ∈ n, c.isDigit = true)
    (hx : x ≠ []) (hxn : ∀ c ∈ x, c ≠ '\n') :
    matchCodec (d ++ (paperLit ++ (n ++ '_' :: (x ++ pdfTail))))
      = some (d, n, x) := by
  have htake8 : (d ++ (paperLit ++ (n ++ '_' :: (x ++ pdfTail)))).take 8 = d := by
    rw [← hd8, List.take_left]
  have hdrop8 : (d ++ (paperLit ++ (n ++ '_' :: (x ++ pdfTail)))).drop 8
      = paperLit ++ (n ++ '_' :: (x ++ pdfTail)) := by
    rw [← hd8, List.drop_left]
  have htake6 : (paperLit ++ (n ++ '_' :: (x ++ pdfTail))).take 6 = paperLit := by
    rw [show (6 : Nat) = paperLit.length from rfl, List.take_left]
  have hdrop6 : (paperLit ++ (n ++ '_' :: (x ++ pdfTail))).drop 6
      = n ++ '_' :: (x ++ pdfTail) := by
    rw [show (6 : Nat) = paperLit.length from rfl, List.drop_left]
  have htw : (n ++ '_' :: (x ++ pdfTail)).takeWhile Char.isDigit = n :=
    takeWhile_append_stop n '_' _ hnd (by decide)
  have hdropn : (n ++ '_' :: (x ++ pdfTail)).drop n.length = '_' :: (x ++ pdfTail) :=
    List.drop_left n _
  have hdropn1 : (n ++ '_' :: (x ++ pdfTail)).drop (n.length + 1) = x ++ pdfTail := by
    rw [← List.drop_drop, hdropn]
    rfl
  rw [matchCodec]
  simp only [htake8, hdrop8, htake6, hdrop6, htw, hdropn, hdropn1]
  simp [hd8, hn, lastPdfPos_exact x hx hxn, List.take_left]
  exact hdd

/-! ### Decoding an encoded filename (Filename Codec round-trip) -/

theorem encodeFilename_toList (y m d i : Nat) (id : String) :
    (encodeFilename y m d i id).toList
      = date8 y m d ++ (paperLit ++ (natDigits i ++ '_' :: (id.toList ++ pdfTail))) := by
  have h1 : "_paper".toList = paperLit := rfl
  have h2 : "_".toList = ['_'] := rfl
  have h3 : ".pdf".toList = pdfTail := rfl
  simp [encodeFilename, toList_append, toList_mk, h1, h2, h3, paperLit,
    pdfTail, List.append_assoc]

theorem encodeFilename_no_slash (y m d i : Nat) (id : String)
    (hsl : ∀ c ∈ id.toList, c ≠ '/') :
    ∀ c ∈ (encodeFilename y m d i id).toList, c ≠ '/' := by
  rw [encodeFilename_toList]
  intro c hc
  simp only [List.mem_append, List.mem_cons] at hc
  rcases hc with h | h | h | rfl | (h | h)
  · exact (ne_of_isDigit (date8_isDigit y m d c h)).2.2.1
  · rcases (by simpa [paperLit] using h : c = '_' ∨ c = 'p' ∨ c = 'a' ∨ c = 'p'
      ∨ c = 'e' ∨ c = 'r') with rfl | rfl | rfl | rfl | rfl | rfl <;> decide
  · exact (ne_of_isDigit (natDigits_isDigit i c h)).2.2.1
  · decide
  · exact hsl c h
  · rcases (by simpa [pdfTail] using h : c = '.' ∨ c = 'p' ∨ c = 'd'
      ∨ c = 'f') with rfl | rfl | rfl | rfl <;> decide

theorem daysInMonth_le_31 (y m : Nat) : daysInMonth y m ≤ 31 := by
  rw [daysInMonth]
  split
  · split <;> omega
  · split <;> omega

theorem validDate_bounds {y m d : Nat} (h : validDate y m d = true) :
    1 ≤ y ∧ y ≤ 9999 ∧ 1 ≤ m ∧ m ≤ 12 ∧ 1 ≤ d ∧ d ≤ 31 := by
  rw [validDate, decide_eq_true_iff] at h
  have := daysInMonth_le_31 y m
  omega

theorem date8_assoc (y m d : Nat) :
    date8 y m d = pad4 y ++ (pad2 m ++ pad2 d) := by
  simp [date8, List.append_assoc]

theorem pad4_length (y : Nat) : (pad4 y).length = 4 := by simp [pad4]

theorem pad2_length (m : Nat) : (pad2 m).length = 2 := by simp [pad2]

theorem take4_date8 (y m d : Nat) : (date8 y m d).take 4 = pad4 y := by
  rw [date8_assoc, show (4 : Nat) = (pad4 y).length from (pad4_length y).symm,
    List.take_left]

theorem drop4_date8 (y m d : Nat) : (date8 y m d).drop 4 = pad2 m ++ pad2 d := by
  rw [date8_assoc, show (4 : Nat) = (pad4 y).length from (pad4_length y).symm,
    List.drop_left]

theorem take2_drop4_date8 (y m d : Nat) :
    ((date8 y m d).drop 4).take 2 = pad2 m := by
  rw [drop4_date8, show (2 : Nat) = (pad2 m).length from (pad2_length m).symm,
    List.take_left]

theorem drop6_date8 (y m d : Nat) : (date8 y m d).drop 6 = pad2 d := by
  have h : (date8 y m d).drop 6 = ((date8 y m d).drop 4).drop 2 := by
    rw [List.drop_drop]
  rw [h, drop4_date8,
    show (2 : Nat) = (pad2 m).length from (pad2_length m).symm, List.drop_left]

theorem codec_decode_encode (y m d i : Nat) (id : String)
    (hv : validDate y m d = true) (hid : id ≠ "")
    (hnl : ∀ c ∈ id.toList, c ≠ '\n') (hsl : ∀ c ∈ id.toList, c ≠ '/') :
    extract_paper_info (encodeFilename y m d i id)
      = Except.ok (some { date := String.mk (isoChars y m d), number := i,
                          arxiv_id := id,
                          filename := encodeFilename y m d i id,
                          path := encodeFilename y m d i id }) := by
  have hbase : basename (encodeFilename y m d i id) = encodeFilename y m d i id :=
    basename_eq_self _ (encodeFilename_no_slash y m d i id hsl)
  have hidnil : id.toList ≠ [] := fun h => hid ((toList_eq_nil_iff id).mp h)
  have hmatch : matchCodec (encodeFilename y m d i id).toList
      = some (date8 y m d, natDigits i, id.toList) := by
    rw [encodeFilename_toList]
    exact matchCodec_concat _ _ _ (date8_length y m d) (date8_isDigit y m d)
      (natDigits_ne_nil i) (natDigits_isDigit i) hidnil hnl
  obtain ⟨hy1, hy2, hm1, hm2, hd1, hd31⟩ := validDate_bounds hv
  rw [extract_paper_info, hbase, hmatch]
  simp only [take4_date8, take2_drop4_date8, drop6_date8,
    digitsToNat_pad4 y hy2, digitsToNat_pad2 m (by omega),
    digitsToNat_pad2 d (by omega), digitsToNat_natDigits, mk_toList, hv]
  simp

/-! ### Declarative characterization of the regex: a filename is accepted
exactly when it has the pattern shape as a prefix — trailing characters
after `.pdf` are permitted because `re.match` anchors only at the start. -/

/-- The declarative shape of a string the codec regex accepts: 8 digits,
the literal `_paper`, a nonempty digit run, `_`, a nonempty newline-free
segment, the literal `.pdf`, then anything. -/
def CodecShape (l : List Char) : Prop :=
  ∃ d n x r : List Char,
    l = d ++ (paperLit ++ (n ++ '_' :: (x ++ (pdfTail ++ r)))) ∧
    d.length = 8 ∧ (∀ c ∈ d, c.isDigit = true) ∧
    n ≠ [] ∧ (∀ c ∈ n, c.isDigit = true) ∧
    x ≠ [] ∧ (∀ c ∈ x, c ≠ '\n')

theorem codecShape_of_match {l d n x : List Char}
    (h : matchCodec l = some (d, n, x)) : CodecShape l := by
  simp only [matchCodec] at h
  split at h
  case isFalse => cases h
  case isTrue h1 =>
    split at h
    case isFalse => cases h
    case isTrue h2 =>
      split at h
      case isFalse => cases h
      case isTrue h3 =>
        split at h
        case h_2 => cases h
        case h_1 p hp =>
          simp only [Option.some.injEq, Prod.mk.injEq] at h
          obtain ⟨hdq, hnq, hxq⟩ := h
          have hv := lastPdfPosAux_valid hp
          rw [isValidPdfPos, decide_eq_true_iff] at hv
          obtain ⟨hp1, hp4, hpn⟩ := hv
          have hRlen := length_ge_of_valid (lastPdfPosAux_valid hp)
          set r2 := (l.drop 8).drop 6 with hr2
          set N := r2.takeWhile Char.isDigit with hN
          set R := r2.drop (N.length + 1) with hR
          refine ⟨d, n, x, R.drop (p + 4), ?_, ?_, ?_, ?_, ?_, ?_, ?_⟩
          · -- reassemble l from its pieces
            have e1 : l = l.take 8 ++ l.drop 8 := (List.take_append_drop 8 l).symm
            have e2 : l.drop 8 = paperLit ++ r2 := by
              conv_lhs => rw [← List.take_append_drop 6 (l.drop 8)]
              rw [h2, hr2]
            obtain ⟨t, ht⟩ := List.takeWhile_prefix (l := r2) Char.isDigit
            have ht2 : N ++ t = r2 := by rw [hN]; exact ht
            have ht' : r2.drop N.length = t := by
              rw [← ht2, List.drop_left]
            have e3 : r2 = N ++ r2.drop N.length := by
              rw [ht', ← ht2]
            have e4 : r2.drop N.length = '_' :: R := by
              conv_lhs => rw [← List.take_append_drop 1 (r2.drop N.length)]
              rw [h3.2, hR, List.drop_drop]
              rfl
            have e5 : R = x ++ (pdfTail ++ R.drop (p + 4)) := by
              conv_lhs => rw [← List.take_append_drop p R]
              rw [hxq]
              congr 1
              conv_lhs => rw [← List.take_append_drop 4 (R.drop p)]
              rw [hp4, List.drop_drop]
            rw [e1, e2, e3, e4, ← e5, ← hdq, ← hnq]
          · rw [← hdq]; exact h1.1
          · rw [← hdq]; exact h1.2
          · rw [← hnq]; exact h3.1
          · rw [← hnq, hN]
            intro c hc
            exact List.mem_takeWhile_imp hc
          · rw [← hxq]
            intro he
            have : (R.take p).length = 0 := by rw [he]; rfl
            rw [List.length_take] at this
            omega
          · rw [← hxq]
            exact hpn

theorem matchCodec_concat_rest (d n x r : List Char)
    (hd8 : d.length = 8) (hdd : ∀ c ∈ d, c.isDigit = true)
    (hn : n ≠ []) (hnd : ∀ c ∈ n, c.isDigit = true)
    (hx : x ≠ []) (hxn : ∀ c ∈ x, c ≠ '\n') :
    ∃ x', matchCodec (d ++ (paperLit ++ (n ++ '_' :: (x ++ (pdfTail ++ r)))))
      = some (d, n, x') := by
  have htake8 : (d ++ (paperLit ++ (n ++ '_' :: (x ++ (pdfTail ++ r))))).take 8
      = d := by
    rw [← hd8, List.take_left]
  have hdrop8 : (d ++ (paperLit ++ (n ++ '_' :: (x ++ (pdfTail ++ r))))).drop 8
      = paperLit ++ (n ++ '_' :: (x ++ (pdfTail ++ r))) := by
    rw [← hd8, List.drop_left]
  have htake6 : (paperLit ++ (n ++ '_' :: (x ++ (pdfTail ++ r)))).take 6
      = paperLit := by
    rw [show (6 : Nat) = paperLit.length from rfl, List.take_left]
  have hdrop6 : (paperLit ++ (n ++ '_' :: (x ++ (pdfTail ++ r)))).drop 6
      = n ++ '_' :: (x ++ (pdfTail ++ r)) := by
    rw [show (6 : Nat) = paperLit.length from rfl, List.drop_left]
  have htw : (n ++ '_' :: (x ++ (pdfTail ++ r))).takeWhile Char.isDigit = n :=
    takeWhile_append_stop n '_' _ hnd (by decide)
  have hdropn : (n ++ '_' :: (x ++ (pdfTail ++ r))).drop n.length
      = '_' :: (x ++ (pdfTail ++ r)) :=
    List.drop_left n _
  have hdropn1 : (n ++ '_' :: (x ++ (pdfTail ++ r))).drop (n.length + 1)
      = x ++ (pdfTail ++ r) := by
    rw [← List.drop_drop, hdropn]
    rfl
  have hvalid : isValidPdfPos (x ++ (pdfTail ++ r)) x.length = true := by
    rw [isValidPdfPos, decide_eq_true_iff]
    refine ⟨?_, ?_, ?_⟩
    · have : x.length ≠ 0 := fun h0 => hx (List.length_eq_zero.mp h0)
      omega
    · rw [List.drop_left, show (4 : Nat) = pdfTail.length from rfl,
        List.take_left]
    · rw [List.take_left]
      exact hxn
  have hnn := lastPdfPosAux_ne_none hvalid (x ++ (pdfTail ++ r)).length
    (by simp)
  cases hp : lastPdfPos (x ++ (pdfTail ++ r)) with
  | none => exact absurd hp hnn
  | some p =>
    refine ⟨(x ++ (pdfTail ++ r)).take p, ?_⟩
    rw [matchCodec]
    simp only [htake8, hdrop8, htake6, hdrop6, htw, hdropn, hdropn1, hp]
    simp [hd8, hn]
    exact hdd

theorem matchCodec_eq_none_iff (l : List Char) :
    matchCodec l = none ↔ ¬ CodecShape l := by
  constructor
  · intro h hs
    obtain ⟨d, n, x, r, rfl, hd8, hdd, hn, hnd, hx, hxn⟩ := hs
    obtain ⟨x', hx'⟩ := matchCodec_concat_rest d n x r hd8 hdd hn hnd hx hxn
    rw [h] at hx'
    cases hx'
  · intro h
    cases hm : matchCodec l with
    | none => rfl
    | some t =>
      obtain ⟨d, n, x⟩ := t
      exact absurd (codecShape_of_match hm) h

/-! ## Claim theorems -/

/-- C1 (amended): Filename Codec round-trip.  For every valid calendar
date, every positive ordinal, and every non-empty identifier that contains
neither a newline (the regex metacharacter `.` never matches one) nor a
path separator (`os.path.basename` would strip everything before it),
decoding the filename produced by the encoder recovers exactly the
original date reformatted as `YYYY-MM-DD`, the same ordinal as an integer,
and the identical identifier string — including identifiers containing
underscores or dots. -/
theorem spec_C1_codec_roundtrip (y m d i : Nat) (id : String)
    (hv : validDate y m d = true) (_hi : 1 ≤ i) (hid : id ≠ "")
    (hnl : ∀ c ∈ id.toList, c ≠ '\n') (hsl : ∀ c ∈ id.toList, c ≠ '/') :
    extract_paper_info (encodeFilename y m d i id)
      = Except.ok (some { date := String.mk (isoChars y m d), number := i,
                          arxiv_id := id,
                          filename := encodeFilename y m d i id,
                          path := encodeFilename y m d i id }) :=
  codec_decode_encode y m d i id hv hid hnl hsl

/-- C1 counterexample: the claim as stated quantifies over every non-empty
identifier string, but an identifier containing a newline breaks the
round-trip — the encoder happily embeds it, and the decoder's regex `.`
cannot match a newline, so decode returns `none` instead of the record. -/
theorem spec_C1_roundtrip_counterexample :
    ("a\nb" : String) ≠ "" ∧
    extract_paper_info (encodeFilename 2024 1 1 1 "a\nb") = Except.ok none :=
  ⟨by decide, by rfl⟩

/-- C1 witness: the amended round-trip at the spec's own example values. -/
theorem spec_C1_codec_roundtrip_witness :
    validDate 2024 6 15 = true ∧ 1 ≤ 1 ∧ ("2401.00001" : String) ≠ "" ∧
    extract_paper_info (encodeFilename 2024 6 15 1 "2401.00001")
      = Except.ok (some { date := String.mk (isoChars 2024 6 15), number := 1,
                          arxiv_id := "2401.00001",
                          filename := encodeFilename 2024 6 15 1 "2401.00001",
                          path := encodeFilename 2024 6 15 1 "2401.00001" }) :=
  ⟨by decide, by decide, by decide,
    spec_C1_codec_roundtrip 2024 6 15 1 "2401.00001" (by decide) (by decide)
      (by decide) (by decide) (by decide)⟩

/-- C2 (amended): decode (`extract_paper_info`) returns `none` exactly for
the filenames whose basename does not *begin with* the codec shape
(8 digits, `_paper`, digits, `_`, a non-empty newline-free segment,
`.pdf`).  In particular it returns `none` for `notes.txt` and
`2024-01-01_paper1_x.pdf`; but because `re.match` is not anchored at the
end, a name with extra characters after `.pdf` such as
`20240101_paper1_x.pdf.bak` is *decoded to a record*, contrary to the
claim. -/
theorem spec_C2_none_iff_not_shaped (f : String) :
    extract_paper_info f = Except.ok none ↔ ¬ CodecShape (basename f).toList := by
  rw [← matchCodec_eq_none_iff]
  simp only [extract_paper_info]
  cases hm : matchCodec (basename f).toList with
  | none => simp
  | some t =>
    obtain ⟨d, n, x⟩ := t
    simp only []
    split <;> simp

/-- C2 counterexample: the claim's own example
`20240101_paper1_x.pdf.bak` does not make decode return `none` — it
yields a full record, because `re.match` permits trailing characters. -/
theorem spec_C2_counterexample_trailing :
    extract_paper_info "20240101_paper1_x.pdf.bak"
      = Except.ok (some { date := "2024-01-01", number := 1, arxiv_id := "x",
                          filename := "20240101_paper1_x.pdf.bak",
                          path := "20240101_paper1_x.pdf.bak" }) := by rfl

/-- C2 witness: `notes.txt` has no codec shape, via the main theorem. -/
theorem spec_C2_none_iff_not_shaped_witness :
    ¬ CodecShape (basename "notes.txt").toList :=
  (spec_C2_none_iff_not_shaped "notes.txt").mp (by rfl)

/-- C10 (confirmed): decode raises (models Python's `ValueError` from
`strptime`) exactly on the filenames that match the codec regex but whose
8-digit component is not a valid calendar date, so decode is not total
over regex-matching strings. -/
theorem spec_C10_error_iff_bad_date (f : String) :
    extract_paper_info f = Except.error () ↔
      ∃ d n x, matchCodec (basename f).toList = some (d, n, x) ∧
        validDate (digitsToNat (d.take 4)) (digitsToNat ((d.drop 4).take 2))
          (digitsToNat (d.drop 6)) = false := by
  simp only [extract_paper_info]
  cases hm : matchCodec (basename f).toList with
  | none =>
    simp
  | some t =>
    obtain ⟨d, n, x⟩ := t
    simp only []
    split
    case isTrue hv =>
      constructor
      · intro h
        simp at h
      · rintro ⟨d', n', x', hsome, hval⟩
        injection hsome with h'
        obtain ⟨h1, h2, h3⟩ : d = d' ∧ n = n' ∧ x = x' := by
          refine ⟨congrArg Prod.fst h', ?_, ?_⟩
          · exact congrArg Prod.fst (congrArg Prod.snd h')
          · exact congrArg Prod.snd (congrArg Prod.snd h')
        subst h1
        rw [hv] at hval
        cases hval
    case isFalse hv =>
      constructor
      · intro _
        exact ⟨d, n, x, rfl, by
          cases hb : validDate (digitsToNat (d.take 4))
              (digitsToNat ((d.drop 4).take 2)) (digitsToNat (d.drop 6))
          · rfl
          · exact absurd hb hv⟩
      · intro _
        rfl

/-- C10 witness: the regex-matching name `20241399_paper1_x.pdf`
(month 13) makes decode raise, via the main theorem. -/
theorem spec_C10_error_iff_bad_date_witness :
    ∃ d n x, matchCodec (basename "20241399_paper1_x.pdf").toList
        = some (d, n, x) ∧
      validDate (digitsToNat (d.take 4)) (digitsToNat ((d.drop 4).take 2))
        (digitsToNat (d.drop 6)) = false :=
  (spec_C10_error_iff_bad_date "20241399_paper1_x.pdf").mp (by rfl)

theorem fsExists_fsWrite_self (fs : FSys) (p c : String) :
    fsExists (fsWrite fs p c) p = true := by
  simp [fsExists, fsWrite, fsLookup, List.find?]

/-- C3 (confirmed): Document Fetcher idempotent skip.  When a file already
exists at the destination path, `download_arxiv_pdf` issues no network
request, leaves the filesystem unchanged, and returns the skip outcome;
consequently, after any call that succeeded (fresh download or skip), a
second call with the same destination path performs no network request. -/
theorem spec_C3_idempotent_skip (http http2 : String → HttpResp)
    (arxiv_id id2 dest name : String) (fs : FSys) :
    (fsExists fs (joinPath dest name) = true →
      (download_arxiv_pdf http arxiv_id dest name fs).requests = [] ∧
      (download_arxiv_pdf http arxiv_id dest name fs).fs = fs ∧
      (download_arxiv_pdf http arxiv_id dest name fs).outcome
        = DlOutcome.skipped) ∧
    (((download_arxiv_pdf http arxiv_id dest name fs).outcome
        = DlOutcome.downloaded ∨
      (download_arxiv_pdf http arxiv_id dest name fs).outcome
        = DlOutcome.skipped) →
      (download_arxiv_pdf http2 id2 dest name
        (download_arxiv_pdf http arxiv_id dest name fs).fs).requests = []) := by
  constructor
  · intro h
    refine ⟨?_, ?_, ?_⟩ <;> simp [download_arxiv_pdf, h]
  · intro hout
    by_cases hex : fsExists fs (joinPath dest name) = true
    · simp [download_arxiv_pdf, hex]
    · rw [Bool.not_eq_true] at hex
      cases hh : http (arxivPdfUrl arxiv_id) with
      | ok status body =>
        by_cases hs : status = 200
        · subst hs
          simp [download_arxiv_pdf, hex, hh, fsExists_fsWrite_self]
        · exfalso
          rcases hout with hout | hout <;>
            simp [download_arxiv_pdf, hex, hh, hs] at hout
      | exn =>
        exfalso
        rcases hout with hout | hout <;>
          simp [download_arxiv_pdf, hex, hh] at hout

/-- C3 witness: skipping on an existing file, and no request on a second
call after a skip, at concrete inputs. -/
theorem spec_C3_idempotent_skip_witness :
    fsExists [("papers/f.pdf", "B")] (joinPath "papers" "f.pdf") = true ∧
    (download_arxiv_pdf (fun _ => HttpResp.exn) "x" "papers" "f.pdf"
      [("papers/f.pdf", "B")]).requests = [] ∧
    (download_arxiv_pdf (fun _ => HttpResp.exn) "x" "papers" "f.pdf"
      [("papers/f.pdf", "B")]).fs = [("papers/f.pdf", "B")] ∧
    (download_arxiv_pdf (fun _ => HttpResp.exn) "x" "papers" "f.pdf"
      [("papers/f.pdf", "B")]).outcome = DlOutcome.skipped :=
  ⟨by rfl,
    (spec_C3_idempotent_skip (fun _ => HttpResp.exn) (fun _ => HttpResp.exn)
      "x" "x" "papers" "f.pdf" [("papers/f.pdf", "B")]).1 (by rfl)⟩

/-- C4 (confirmed): Document Fetcher soft failure.  When the destination
file does not exist and the HTTP response has a status other than 200, the
function logs a warning, creates no file (the filesystem is unchanged),
and returns normally with the not-found outcome instead of raising. -/
theorem spec_C4_soft_failure (http : String → HttpResp)
    (arxiv_id dest name : String) (fs : FSys) (status : Nat) (body : String)
    (hex : fsExists fs (joinPath dest name) = false)
    (hh : http (arxivPdfUrl arxiv_id) = HttpResp.ok status body)
    (hs : status ≠ 200) :
    (download_arxiv_pdf http arxiv_id dest name fs).fs = fs ∧
    (download_arxiv_pdf http arxiv_id dest name fs).outcome
      = DlOutcome.notFound ∧
    (download_arxiv_pdf http arxiv_id dest name fs).outcome
      ≠ DlOutcome.raised ∧
    (download_arxiv_pdf http arxiv_id dest name fs).logs
      = [LogEv.infoDownloading (arxivPdfUrl arxiv_id),
         LogEv.warnNotFound arxiv_id status] := by
  refine ⟨?_, ?_, ?_, ?_⟩ <;> simp [download_arxiv_pdf, hex, hh, hs]

/-- C4 witness: a 404 on an absent file at concrete inputs. -/
theorem spec_C4_soft_failure_witness :
    fsExists [] (joinPath "papers" "f.pdf") = false ∧
    (404 : Nat) ≠ 200 ∧
    (download_arxiv_pdf (fun _ => HttpResp.ok 404 "") "x" "papers" "f.pdf"
      []).fs = [] ∧
    (download_arxiv_pdf (fun _ => HttpResp.ok 404 "") "x" "papers" "f.pdf"
      []).outcome = DlOutcome.notFound :=
  ⟨by rfl, by decide,
    ((spec_C4_soft_failure (fun _ => HttpResp.ok 404 "") "x" "papers" "f.pdf"
      [] 404 "" (by rfl) (by rfl) (by decide))).1,
    ((spec_C4_soft_failure (fun _ => HttpResp.ok 404 "") "x" "papers" "f.pdf"
      [] 404 "" (by rfl) (by rfl) (by decide))).2.1⟩

/-- C5 (confirmed): Listing Resolver cap and empty case.  On a
successfully fetched page, `get_arxiv_ids` returns the final path segment
of the first at-most-5 matching anchors in document order: the result
length is `min 5` the anchor count (so exactly 5 of 8, and 0 of 0, with no
possibility of raising), and entry `i` is the last segment of anchor
`i`. -/
theorem spec_C5_listing_cap (anchors : List String) :
    (get_arxiv_ids anchors).length = min 5 anchors.length ∧
    (anchors = [] → get_arxiv_ids anchors = []) ∧
    (∀ i, i < 5 → (get_arxiv_ids anchors)[i]? = anchors[i]?.map lastSegment) := by
  refine ⟨?_, ?_, ?_⟩
  · simp [get_arxiv_ids]
  · intro h
    subst h
    rfl
  · intro i hi
    simp [get_arxiv_ids, List.getElem?_take, hi]

/-- C5 witness: a page with 8 matching anchors, instantiating the
per-index description at index 2. -/
theorem spec_C5_listing_cap_witness :
    (get_arxiv_ids ["https://h.co/papers/a1", "https://h.co/papers/a2",
      "https://h.co/papers/a3", "https://h.co/papers/a4",
      "https://h.co/papers/a5", "https://h.co/papers/a6",
      "https://h.co/papers/a7", "https://h.co/papers/a8"]).length
      = min 5 (8 : Nat) ∧
    (get_arxiv_ids ["https://h.co/papers/a1", "https://h.co/papers/a2",
      "https://h.co/papers/a3", "https://h.co/papers/a4",
      "https://h.co/papers/a5", "https://h.co/papers/a6",
      "https://h.co/papers/a7", "https://h.co/papers/a8"])[2]?
      = (["https://h.co/papers/a1", "https://h.co/papers/a2",
      "https://h.co/papers/a3", "https://h.co/papers/a4",
      "https://h.co/papers/a5", "https://h.co/papers/a6",
      "https://h.co/papers/a7", "https://h.co/papers/a8"] :
        List String)[2]?.map lastSegment :=
  ⟨(spec_C5_listing_cap _).1,
    (spec_C5_listing_cap _).2.2 2 (by decide)⟩

/-! ### Batch Downloader trace lemmas -/

/-- Extracts the date of a date-processing event. -/
def dateEv : Ev → Option DateT
  | .procDate dt => some dt
  | _ => none

/-- Extracts the 1-based position and identifier of a download attempt,
whether it returned or raised. -/
def attemptKey : Ev → Option (Nat × String)
  | .attempt i arxiv_id => some (i, arxiv_id)
  | .attemptFailed i arxiv_id => some (i, arxiv_id)
  | _ => none

theorem runIds_filterMap_dateEv (http : String → HttpResp) (dt : DateT)
    (out_dir : String) (n : Nat) :
    ∀ ids i fs, ((runIds http dt out_dir n i ids fs).2).filterMap dateEv
      = [] := by
  intro ids
  induction ids with
  | nil => intro i fs; rfl
  | cons a rest ih =>
    intro i fs
    rw [runIds]
    split
    · simp [dateEv, ih]
    · by_cases h : i < n <;>
        simp [h, dateEv, ih, List.filterMap_append]

theorem runIds_filterMap_attemptKey (http : String → HttpResp) (dt : DateT)
    (out_dir : String) (n : Nat) :
    ∀ ids i fs, ((runIds http dt out_dir n i ids fs).2).filterMap attemptKey
      = List.enumFrom i ids := by
  intro ids
  induction ids with
  | nil => intro i fs; rfl
  | cons a rest ih =>
    intro i fs
    rw [runIds]
    split
    · simp [attemptKey, ih, List.enumFrom]
    · by_cases h : i < n <;>
        simp [h, attemptKey, ih, List.enumFrom, List.filterMap_append]

/-- C6 (confirmed): Batch Downloader failure isolation.  Every date of the
range gets its processing event — a listing failure is recorded and the
loop continues with the next date — and within a date every identifier is
attempted at its 1-based ordinal, whether or not the fetcher raises for an
earlier identifier of the same date. -/
theorem spec_C6_failure_isolation (http : String → HttpResp)
    (listing : DateT → Except Unit (List String)) (out_dir : String)
    (dates : List DateT) (fs : FSys) :
    ((pull_main http listing out_dir dates fs).2).filterMap dateEv = dates ∧
    (∀ dt ids fs2, ((runDate http dt out_dir ids fs2).2).filterMap attemptKey
      = List.enumFrom 1 ids) := by
  constructor
  · induction dates generalizing fs with
    | nil => rfl
    | cons dt rest ih =>
      rw [pull_main]
      cases hl : listing dt with
      | error u => simp [dateEv, ih]
      | ok ids =>
        simp [dateEv, List.filterMap_append, ih, runDate,
          runIds_filterMap_dateEv]
  · intro dt ids fs2
    exact runIds_filterMap_attemptKey http dt out_dir ids.length ids 1 fs2

theorem runIds_head_ne_sleep (http : String → HttpResp) (dt : DateT)
    (out_dir : String) (n i : Nat) (fs : FSys) :
    ∀ ids, ((runIds http dt out_dir n i ids fs).2)[0]? ≠ some Ev.sleep := by
  intro ids
  cases ids with
  | nil => simp [runIds]
  | cons a rest =>
    rw [runIds]
    split <;> simp

/-- Sleep discipline of the inner download loop: a sleep event follows a
normally-returning attempt exactly when it is not the last of the date,
and never follows an attempt that raised (the exception handler is entered
before `time.sleep`). -/
theorem runIds_sleep_discipline (http : String → HttpResp) (dt : DateT)
    (out_dir : String) (n : Nat) :
    ∀ ids i0 fs k, i0 + ids.length = n + 1 →
      (∀ i id, ((runIds http dt out_dir n i0 ids fs).2)[k]?
          = some (Ev.attempt i id) →
        (((runIds http dt out_dir n i0 ids fs).2)[k + 1]? = some Ev.sleep
          ↔ i < n)) ∧
      (∀ i id, ((runIds http dt out_dir n i0 ids fs).2)[k]?
          = some (Ev.attemptFailed i id) →
        ((runIds http dt out_dir n i0 ids fs).2)[k + 1]? ≠ some Ev.sleep) := by
  intro ids
  induction ids with
  | nil =>
    intro i0 fs k hinv
    constructor <;> intro i id h <;> simp [runIds] at h
  | cons a rest ih =>
    intro i0 fs k hinv
    have hinv' : (i0 + 1) + rest.length = n + 1 := by
      simp at hinv
      omega
    rw [runIds]
    by_cases hr : (download_arxiv_pdf http a out_dir
        (encodeFilename dt.y dt.m dt.d i0 a) fs).outcome = DlOutcome.raised
    · rw [if_pos hr]
      cases k with
      | zero =>
        constructor
        · intro i id h
          simp at h
        · intro i id _
          simp only [List.getElem?_cons_succ]
          exact runIds_head_ne_sleep http dt out_dir n (i0 + 1) _ rest
      | succ k =>
        have hih := ih (i0 + 1) (download_arxiv_pdf http a out_dir
          (encodeFilename dt.y dt.m dt.d i0 a) fs).fs k hinv'
        constructor
        · intro i id h
          simp only [List.getElem?_cons_succ] at h ⊢
          exact hih.1 i id h
        · intro i id h
          simp only [List.getElem?_cons_succ] at h ⊢
          exact hih.2 i id h
    · rw [if_neg hr]
      by_cases hi : i0 < n
      · rw [if_pos hi]
        cases k with
        | zero =>
          constructor
          · intro i id h
            simp only [List.getElem?_cons_zero, Option.some.injEq,
              Ev.attempt.injEq] at h
            obtain ⟨rfl, rfl⟩ := h
            simp [hi]
          · intro i id h
            simp at h
        | succ k =>
          cases k with
          | zero =>
            constructor <;> intro i id h <;> simp at h
          | succ k =>
            have hih := ih (i0 + 1) (download_arxiv_pdf http a out_dir
              (encodeFilename dt.y dt.m dt.d i0 a) fs).fs k hinv'
            constructor
            · intro i id h
              simp only [List.singleton_append, List.getElem?_cons_succ] at h ⊢
              exact hih.1 i id h
            · intro i id h
              simp only [List.singleton_append, List.getElem?_cons_succ] at h ⊢
              exact hih.2 i id h
      · rw [if_neg hi]
        have hrest : rest = [] := by
          have hlen : rest.length = 0 := by
            simp at hinv
            omega
          exact List.length_eq_zero.mp hlen
        subst hrest
        cases k with
        | zero =>
          constructor
          · intro i id h
            simp only [List.getElem?_cons_zero, Option.some.injEq,
              Ev.attempt.injEq] at h
            obtain ⟨rfl, rfl⟩ := h
            simp [runIds]
            omega
          · intro i id h
            simp at h
        | succ k =>
          constructor <;> intro i id h <;>
            simp [runIds, List.getElem?_cons_succ] at h

/-- C7 (amended): Batch Downloader pacing.  Within a date, the 1-second
sleep happens immediately after a download attempt that returns normally
(fresh download, idempotent skip, or soft failure) exactly when the
attempt is not the date's last; after the last identifier there is no
sleep, and after an attempt that raises there is no sleep either — the
exception jumps to the handler past `time.sleep`, contrary to the original
claim's "including attempts that raise". -/
theorem spec_C7_pacing (http : String → HttpResp) (dt : DateT)
    (out_dir : String) (ids : List String) (fs : FSys) (k : Nat) :
    (∀ i id, ((runDate http dt out_dir ids fs).2)[k]?
        = some (Ev.attempt i id) →
      (((runDate http dt out_dir ids fs).2)[k + 1]? = some Ev.sleep
        ↔ i < ids.length)) ∧
    (∀ i id, ((runDate http dt out_dir ids fs).2)[k]?
        = some (Ev.attemptFailed i id) →
      ((runDate http dt out_dir ids fs).2)[k + 1]? ≠ some Ev.sleep) :=
  runIds_sleep_discipline http dt out_dir ids.length ids 1 fs k (by omega)

/-- C7 counterexample: with two identifiers whose downloads both raise,
the run contains two consecutive attempts and no sleep at all between
them, refuting "a sleep occurs between every pair of consecutive
successful-or-attempted downloads (including attempts that raise)". -/
theorem spec_C7_pacing_counterexample :
    (pull_main (fun _ => HttpResp.exn) (fun _ => Except.ok ["a", "b"])
      "papers" [{ y := 2024, m := 1, d := 1 }] []).2
      = [Ev.procDate { y := 2024, m := 1, d := 1 },
         Ev.attemptFailed 1 "a", Ev.attemptFailed 2 "b"] ∧
    Ev.sleep ∉ (pull_main (fun _ => HttpResp.exn)
      (fun _ => Except.ok ["a", "b"])
      "papers" [{ y := 2024, m := 1, d := 1 }] []).2 :=
  ⟨by rfl, by decide⟩

/-- C7 witness: with two successful downloads, a sleep does follow the
first attempt, via the main theorem. -/
theorem spec_C7_pacing_witness :
    ((runDate (fun _ => HttpResp.ok 200 "B") { y := 2024, m := 1, d := 1 }
      "papers" ["a", "b"] []).2)[1]? = some Ev.sleep :=
  ((spec_C7_pacing (fun _ => HttpResp.ok 200 "B") { y := 2024, m := 1, d := 1 }
    "papers" ["a", "b"] [] 0).1 1 "a" (by rfl)).mpr (by decide)

/-! ### Summary Generator lemmas -/

theorem selectPapers_sound :
    ∀ (files : List String) (s e : DateT) (papers : List PaperRecord),
      selectPapers files s e = Except.ok papers →
      ∀ r ∈ papers, ∃ f, f ∈ files ∧ extract_paper_info f = Except.ok (some r) ∧
        dateLe s (parseIso r.date) = true ∧ dateLe (parseIso r.date) e = true := by
  intro files
  induction files with
  | nil =>
    intro s e papers h r hr
    rw [selectPapers] at h
    injection h with h'
    subst h'
    cases hr
  | cons f rest ih =>
    intro s e papers h r hr
    rw [selectPapers] at h
    cases he : extract_paper_info f with
    | error u =>
      rw [he] at h
      cases h
    | ok ro =>
      cases hsel : selectPapers rest s e with
      | error u =>
        rw [he, hsel] at h
        cases ro <;> cases h
      | ok tail =>
        have ihh := ih s e tail hsel
        rw [he, hsel] at h
        cases ro with
        | none =>
          injection h with h'
          subst h'
          obtain ⟨f', hf', hrest⟩ := ihh r hr
          exact ⟨f', List.mem_cons_of_mem f hf', hrest⟩
        | some r0 =>
          simp only [] at h
          split at h
          case isTrue hcond =>
            injection h with h'
            subst h'
            rcases List.mem_cons.mp hr with rfl | hr'
            · rw [Bool.and_eq_true] at hcond
              exact ⟨f, List.mem_cons_self f rest, he, hcond.1, hcond.2⟩
            · obtain ⟨f', hf', hrest⟩ := ihh r hr'
              exact ⟨f', List.mem_cons_of_mem f hf', hrest⟩
          case isFalse =>
            injection h with h'
            subst h'
            obtain ⟨f', hf', hrest⟩ := ihh r hr
            exact ⟨f', List.mem_cons_of_mem f hf', hrest⟩

theorem processPapers_paths (convert : String → Except Unit String)
    (mdir : String) :
    ∀ (papers : List PaperRecord) (fs : FSys) (p : String),
      p ∈ (processPapers convert mdir papers fs).2 →
      ∃ r, r ∈ papers ∧ p = joinPath mdir (stem r.filename ++ ".md") := by
  intro papers
  induction papers with
  | nil =>
    intro fs p hp
    cases hp
  | cons r rest ih =>
    intro fs p hp
    rw [processPapers] at hp
    cases hc : convert r.path with
    | error u =>
      rw [hc] at hp
      obtain ⟨r', hr', he⟩ := ih fs p hp
      exact ⟨r', List.mem_cons_of_mem r hr', he⟩
    | ok text =>
      rw [hc] at hp
      rcases List.mem_cons.mp hp with rfl | hp'
      · exact ⟨r, List.mem_cons_self r rest, rfl⟩
      · obtain ⟨r', hr', he⟩ := ih _ p hp'
        exact ⟨r', List.mem_cons_of_mem r hr', he⟩

/-- C8 (confirmed, with the elided selection prologue modelled from the
spec): `generate_markdown` writes summary documents only for files of the
source directory whose names decode via the Filename Codec to a record
whose date lies within the requested range; and on the concrete directory
with one in-range and one out-of-range matching file, exactly one summary
is written, for the in-range file. -/
theorem spec_C8_range_filter :
    (∀ (convert : String → Except Unit String) (files : List String)
        (mdir : String) (s e : DateT) (fs fs2 : FSys) (out : List String),
      generate_markdown convert files mdir s e fs = Except.ok (fs2, out) →
      ∀ p ∈ out, ∃ f r, f ∈ files ∧
        extract_paper_info f = Except.ok (some r) ∧
        dateLe s (parseIso r.date) = true ∧ dateLe (parseIso r.date) e = true ∧
        p = joinPath mdir (stem r.filename ++ ".md")) ∧
    ((generate_markdown (fun _ => Except.ok "T")
      ["20240615_paper1_a.pdf", "20230101_paper1_b.pdf"] "summaries"
      { y := 2024, m := 6, d := 1 } { y := 2024, m := 6, d := 30 } []).map
        (fun k => k.2)
      = Except.ok ["summaries/20240615_paper1_a.md"]) := by
  constructor
  · intro convert files mdir s e fs fs2 out h p hp
    rw [generate_markdown] at h
    cases hsel : selectPapers files s e with
    | error u =>
      rw [hsel] at h
      cases h
    | ok papers =>
      rw [hsel] at h
      injection h with h'
      have hout : (processPapers convert mdir papers fs).2 = out :=
        congrArg Prod.snd h'
      rw [← hout] at hp
      obtain ⟨r, hr, hpth⟩ := processPapers_paths convert mdir papers fs p hp
      obtain ⟨f, hf, hext, h1, h2⟩ := selectPapers_sound files s e papers hsel r hr
      exact ⟨f, r, hf, hext, h1, h2, hpth⟩
  · rfl

/-- C8 witness: the written path of the concrete two-file run comes from
an in-range decodable file, via the main theorem. -/
theorem spec_C8_range_filter_witness :
    ∃ f r, f ∈ ["20240615_paper1_a.pdf", "20230101_paper1_b.pdf"] ∧
      extract_paper_info f = Except.ok (some r) ∧
      dateLe { y := 2024, m := 6, d := 1 } (parseIso r.date) = true ∧
      dateLe (parseIso r.date) { y := 2024, m := 6, d := 30 } = true ∧
      "summaries/20240615_paper1_a.md"
        = joinPath "summaries" (stem r.filename ++ ".md") :=
  spec_C8_range_filter.1 (fun _ => Except.ok "T")
    ["20240615_paper1_a.pdf", "20230101_paper1_b.pdf"] "summaries"
    { y := 2024, m := 6, d := 1 } { y := 2024, m := 6, d := 30 } []
    (processPapers (fun _ => Except.ok "T") "summaries"
      [{ date := "2024-06-15", number := 1, arxiv_id := "a",
         filename := "20240615_paper1_a.pdf",
         path := "20240615_paper1_a.pdf" }] []).1
    ["summaries/20240615_paper1_a.md"] (by rfl)
    "summaries/20240615_paper1_a.md" (by decide)

theorem fsLookup_fsWrite_self (fs : FSys) (p c : String) :
    fsLookup (fsWrite fs p c) p = some c := by
  simp [fsLookup, fsWrite, List.find?]

/-- The part of `mdBody` after the `# Paper: <id>` heading (a reassociated
view used to reason about the first line). -/
def mdTail (r : PaperRecord) (t : String) : String :=
  "\n\n- **Date**: " ++ (r.date
    ++ ("\n- **Paper Number**: " ++ (String.mk (natDigits r.number)
    ++ ("\n- **ArXiv ID**: [" ++ (r.arxiv_id
    ++ ("](" ++ (arxivAbsUrl r.arxiv_id
    ++ (")\n- **HuggingFace Link**: [View on HuggingFace](" ++ (hfUrl r.arxiv_id
    ++ (")\n\n"
    ++ (if t ≠ "" then "## Paper\n\n" ++ t ++ "\n"
        else "## Summary\n\nFailed to extract paper as markdown.\n")))))))))))

theorem mdBody_split_head (r : PaperRecord) (t : String) :
    mdBody r t = ("# Paper: " ++ r.arxiv_id) ++ mdTail r t := by
  simp [mdBody, mdTail, String.append_assoc]

/-- The part of `mdBody` before the abstract URL. -/
def mdPre (r : PaperRecord) : String :=
  "# Paper: " ++ (r.arxiv_id
    ++ ("\n\n- **Date**: " ++ (r.date
    ++ ("\n- **Paper Number**: " ++ (String.mk (natDigits r.number)
    ++ ("\n- **ArXiv ID**: [" ++ (r.arxiv_id
    ++ "](")))))))

/-- The part of `mdBody` after the abstract URL. -/
def mdPost (r : PaperRecord) (t : String) : String :=
  ")\n- **HuggingFace Link**: [View on HuggingFace](" ++ (hfUrl r.arxiv_id
    ++ (")\n\n"
    ++ (if t ≠ "" then "## Paper\n\n" ++ t ++ "\n"
        else "## Summary\n\nFailed to extract paper as markdown.\n")))

theorem mdBody_split_url (r : PaperRecord) (t : String) :
    mdBody r t = mdPre r ++ (arxivAbsUrl r.arxiv_id ++ mdPost r t) := by
  simp [mdBody, mdPre, mdPost, String.append_assoc]

theorem firstLine_mdBody (r : PaperRecord) (t : String)
    (h : ∀ c ∈ r.arxiv_id.toList, c ≠ '\n') :
    firstLine (mdBody r t) = "# Paper: " ++ r.arxiv_id := by
  have ha : ∀ c ∈ ("# Paper: " ++ r.arxiv_id).toList,
      (decide (c ≠ '\n') : Bool) = true := by
    intro c hc
    rw [toList_append] at hc
    rcases List.mem_append.mp hc with hc | hc
    · have hfix : ∀ x ∈ "# Paper: ".toList, (decide (x ≠ '\n') : Bool) = true := by
        decide
      exact hfix c hc
    · exact decide_eq_true (h c hc)
  obtain ⟨w, hw⟩ : ∃ w, (mdTail r t).toList = '\n' :: w :=
    ⟨_, by rw [mdTail, toList_append]; rfl⟩
  rw [firstLine, mdBody_split_head, toList_append, hw,
    takeWhile_append_stop _ '\n' w ha (by decide), mk_toList]

theorem mdBody_contains_absUrl (r : PaperRecord) (t : String) :
    containsStr (mdBody r t) (arxivAbsUrl r.arxiv_id) = true := by
  rw [containsStr, mdBody_split_url, toList_append, toList_append]
  apply isSubList_append_right
  exact isSubList_self_append _ _

/-- C9 (confirmed, with the elided selection prologue modelled from the
spec): for a source directory containing `20240615_paper1_2401.00001.pdf`
and a range covering 2024-06-15, when the converter succeeds (with any
text), `generate_markdown` reports exactly the file
`summaries/20240615_paper1_2401.00001.md`, whose stored content has first
line `# Paper: 2401.00001` and contains
`https://arxiv.org/abs/2401.00001`; the write is unconditional, so any
prior file at that path (the conclusion holds for every starting
filesystem) is overwritten. -/
theorem spec_C9_summary_shape (t : String) (fs : FSys)
    (convert : String → Except Unit String)
    (hc : convert "papers/20240615_paper1_2401.00001.pdf" = Except.ok t) :
    ∃ fs2 content,
      generate_markdown convert ["papers/20240615_paper1_2401.00001.pdf"]
        "summaries" { y := 2024, m := 6, d := 1 }
        { y := 2024, m := 6, d := 30 } fs
        = Except.ok (fs2, ["summaries/20240615_paper1_2401.00001.md"]) ∧
      fsLookup fs2 "summaries/20240615_paper1_2401.00001.md" = some content ∧
      firstLine content = "# Paper: 2401.00001" ∧
      containsStr content "https://arxiv.org/abs/2401.00001" = true := by
  have hsel : selectPapers ["papers/20240615_paper1_2401.00001.pdf"]
      { y := 2024, m := 6, d := 1 } { y := 2024, m := 6, d := 30 }
      = Except.ok [{ date := "2024-06-15", number := 1,
                     arxiv_id := "2401.00001",
                     filename := "20240615_paper1_2401.00001.pdf",
                     path := "papers/20240615_paper1_2401.00001.pdf" }] := by
    rfl
  have hproc : processPapers convert "summaries"
      [{ date := "2024-06-15", number := 1, arxiv_id := "2401.00001",
         filename := "20240615_paper1_2401.00001.pdf",
         path := "papers/20240615_paper1_2401.00001.pdf" }] fs
      = (fsWrite fs "summaries/20240615_paper1_2401.00001.md"
          (mdBody { date := "2024-06-15", number := 1,
                    arxiv_id := "2401.00001",
                    filename := "20240615_paper1_2401.00001.pdf",
                    path := "papers/20240615_paper1_2401.00001.pdf" } t),
         ["summaries/20240615_paper1_2401.00001.md"]) := by
    rw [processPapers,
      show convert ({ date := "2024-06-15", number := 1,
                      arxiv_id := "2401.00001",
                      filename := "20240615_paper1_2401.00001.pdf",
                      path := "papers/20240615_paper1_2401.00001.pdf" } :
            PaperRecord).path = Except.ok t from hc]
    rfl
  have hgen : generate_markdown convert
      ["papers/20240615_paper1_2401.00001.pdf"] "summaries"
      { y := 2024, m := 6, d := 1 } { y := 2024, m := 6, d := 30 } fs
      = Except.ok (fsWrite fs "summaries/20240615_paper1_2401.00001.md"
          (mdBody { date := "2024-06-15", number := 1,
                    arxiv_id := "2401.00001",
                    filename := "20240615_paper1_2401.00001.pdf",
                    path := "papers/20240615_paper1_2401.00001.pdf" } t),
         ["summaries/20240615_paper1_2401.00001.md"]) := by
    simp only [generate_markdown, hsel]
    rw [hproc]
  exact ⟨_, _, hgen, fsLookup_fsWrite_self fs _ _,
    (firstLine_mdBody _ t (by decide)).trans (by rfl),
    (by
      rw [show ("https://arxiv.org/abs/2401.00001" : String)
          = arxivAbsUrl "2401.00001" from rfl]
      exact mdBody_contains_absUrl _ t)⟩

/-- C9 witness: a concrete run with converter text `"S"` over a filesystem
that already holds an old file at the summary path. -/
theorem spec_C9_summary_shape_witness :
    ∃ fs2 content,
      generate_markdown (fun _ => Except.ok "S")
        ["papers/20240615_paper1_2401.00001.pdf"]
        "summaries" { y := 2024, m := 6, d := 1 }
        { y := 2024, m := 6, d := 30 }
        [("summaries/20240615_paper1_2401.00001.md", "old")]
        = Except.ok (fs2, ["summaries/20240615_paper1_2401.00001.md"]) ∧
      fsLookup fs2 "summaries/20240615_paper1_2401.00001.md" = some content ∧
      firstLine content = "# Paper: 2401.00001" ∧
      containsStr content "https://arxiv.org/abs/2401.00001" = true :=
  spec_C9_summary_shape "S"
    [("summaries/20240615_paper1_2401.00001.md", "old")]
    (fun _ => Except.ok "S") (by rfl)
